import Mathlib

/-!
Shallow embedding of the submap-aware depth-integration pipeline of
`ros_submapping` (`SupereightInterface.hpp` and the ROS node file).

Conventions of the embedding:
* C++ `int` arithmetic is modelled on `ℤ` with an explicit two's-complement
  wrap at 32 bits (`wrap32`); `std::size_t` values are `ℕ` reduced mod `2^64`
  (`toSizeT`); `uint64_t` values are `ℕ` (the source never overflows them).
* Geometric quantities (poses, positions, cell sizes, depths) are `ℚ`;
  a `Transformation` enters the modelled code only through its translation,
  so poses are modelled by their position `Vec3`.
* `std::unordered_map` / `std::unordered_set` members are modelled as total
  functions from the exact key type (with `Option` / `Finset` codomains),
  which is their observable behaviour: buckets are keyed by exact equality
  of the key, independently of the hash value.
* The repository ships only the header `SupereightInterface.hpp` (member
  declarations, inline members, doc comments) and the ROS node; for member
  functions whose definitions are not in the repository slice the model is
  taken from the specification, marked `Modelled from the spec:` below.
-/

/-- 3D vector over `ℚ` (models `Eigen::Vector3d` / translation part of
`okvis::kinematics::Transformation`). -/
abbrev Vec3 : Type := ℚ × ℚ × ℚ

/-- Integer cell coordinate (models `Eigen::Vector3i`). -/
abbrev Cell : Type := ℤ × ℤ × ℤ

/-- Bounding dimensions of a submap (models the
`Eigen::Matrix<float,6,1>` stored in `submapDimensionLookup_`: min corner
offset and max corner offset of the submap's axis box). -/
abbrev Dims : Type := Vec3 × Vec3

/-- Two's-complement wrap of C++ 32-bit `int` arithmetic. -/
def wrap32 (v : ℤ) : ℤ := (v + 2 ^ 31) % 2 ^ 32 - 2 ^ 31

/-- C++ conversion of a (possibly negative) `int` to `std::size_t`
(64-bit): reduction mod `2^64`. -/
def toSizeT (v : ℤ) : ℕ := (v % 2 ^ 64).toNat

/-- C++ conversion `uint64_t → int` (32-bit, two's complement wrap, the
behaviour of the targeted platforms).  This narrowing happens implicitly
whenever a `uint64_t` submap id is stored into the spatial hash tables,
whose buckets and inverse keys are `int` (`hashTable_`,
`hashTableInverse_`). -/
def uint64ToInt (n : ℕ) : ℤ := wrap32 (n : ℤ)

/-- `SupereightInterface::SpatialHasher::operator()`: with
`p1 = 73856093`, `p2 = 19349663`, `p3 = 83492791`,
`h = a[0]*p1 ^ a[1]*p2 ^ a[2]*p3` in C++ `int` arithmetic (each product
wraps at 32 bits; xor of 32-bit values is exact), and `h` is returned as
`std::size_t`. -/
def spatialHasher (a : Cell) : ℕ :=
  toSizeT (Int.xor (Int.xor (wrap32 (a.1 * 73856093)) (wrap32 (a.2.1 * 19349663)))
    (wrap32 (a.2.2 * 83492791)))

/-- State of a `SupereightInterface` object: the member variables of the
class that the modelled operations read or write, with the source's
names.  `submapLookup_` maps a submap id to its registry position
(modelling the `SubmapList::iterator` it stores); forward/inverse hash
tables carry narrowed `int` ids, every other table is keyed by the full
`uint64_t` id, exactly as in the member declarations. -/
structure SupereightInterface where
  distThreshold_ : ℚ
  no_kf_yet : Bool
  latestKeyframeId : ℕ
  blocking_ : Bool
  propagatedStates : List (ℚ × Vec3)
  submapLookup_ : ℕ → Option ℕ
  submapPoseLookup_ : ℕ → Option Vec3
  submapDimensionLookup_ : ℕ → Option Dims
  hashTable_ : Cell → Finset ℤ
  hashTableInverse_ : ℤ → Finset Cell
  submapLookup_read : ℕ → Option ℕ
  submapPoseLookup_read : ℕ → Option Vec3
  hashTable_read : Cell → Finset ℤ

/-- The `SupereightInterface` constructor (header, inline): stores the
distance threshold and initialises `no_kf_yet = true`,
`latestKeyframeId = 1`, `blocking_ = true`; the lookup tables start
empty.  It performs no validation of the threshold. -/
def SupereightInterface.construct (distThreshold : ℚ) : SupereightInterface where
  distThreshold_ := distThreshold
  no_kf_yet := true
  latestKeyframeId := 1
  blocking_ := true
  propagatedStates := []
  submapLookup_ := fun _ => none
  submapPoseLookup_ := fun _ => none
  submapDimensionLookup_ := fun _ => none
  hashTable_ := fun _ => ∅
  hashTableInverse_ := fun _ => ∅
  submapLookup_read := fun _ => none
  submapPoseLookup_read := fun _ => none
  hashTable_read := fun _ => ∅

/-- `RosInterfacer::RosInterfacer` (node file): reads `dist_threshold`
from the config, runs `assert(distThreshold >= 0)` — a failing assert
aborts the process before any instance exists — and only then constructs
the `SupereightInterface` with that threshold.  `none` models the
aborted construction. -/
def RosInterfacer.construct (distThreshold : ℚ) : Option SupereightInterface :=
  if 0 ≤ distThreshold then some (SupereightInterface.construct distThreshold) else none

/-- Cell containing a point: elementwise floor of `point / cellSize`
(the uniform-grid discretisation used by the spatial hash index; the
cell side is fixed at construction and passed here as `side`). -/
def cellOf (side : ℚ) (p : Vec3) : Cell :=
  (⌊p.1 / side⌋, ⌊p.2.1 / side⌋, ⌊p.2.2 / side⌋)

/-- Modelled from the spec: the cell enumeration of `doSpatialHashing` /
`redoSpatialHashing` (definitions not in the repository slice) — the
submap's bounding box, placed at the submap pose `pos` with cached
min/max corner offsets `dims`, covers every grid cell between the cell
of its min corner and the cell of its max corner. -/
def cellsOf (side : ℚ) (pos : Vec3) (dims : Dims) : Finset Cell :=
  Finset.Icc (cellOf side (pos + dims.1)) (cellOf side (pos + dims.2))

/-- Erase the narrowed id `i` from every bucket listed in `cells`
(removal of a submap's current memberships, driven by the inverse
table). -/
def eraseCells (t : Cell → Finset ℤ) (cells : Finset Cell) (i : ℤ) :
    Cell → Finset ℤ :=
  fun c => if c ∈ cells then (t c).erase i else t c

/-- Insert the narrowed id `i` into every bucket listed in `cells`. -/
def insertCells (t : Cell → Finset ℤ) (cells : Finset Cell) (i : ℤ) :
    Cell → Finset ℤ :=
  fun c => if c ∈ cells then insert i (t c) else t c

/-- Modelled from the spec: `SupereightInterface::doPrelimSpatialHashing`
(definition not in the repository slice) — inserts the submap id into
the single cell containing the keyframe position `pos_kf`, before the
map's extent is known.  The id is narrowed to `int` when stored. -/
def doPrelimSpatialHashing (side : ℚ) (id : ℕ) (pos_kf : Vec3)
    (s : SupereightInterface) : SupereightInterface :=
  let i := uint64ToInt id
  let c := cellOf side pos_kf
  { s with
    hashTable_ := fun c' => if c' = c then insert i (s.hashTable_ c') else s.hashTable_ c'
    hashTableInverse_ := fun j =>
      if j = i then insert c (s.hashTableInverse_ j) else s.hashTableInverse_ j }

/-- Modelled from the spec: `SupereightInterface::doSpatialHashing`
(definition not in the repository slice) — indexes a finalized map:
removes the id's preliminary entries (the cells currently recorded in
the inverse table), caches the bounding dimensions computed from the
map, enumerates the cells of the bounding box from the pose and those
dimensions, inserts the id into each, and records the enumerated cell
set in the inverse table.  The id is narrowed to `int` in both hash
tables but kept as `uint64_t` in the dimension lookup. -/
def doSpatialHashing (side : ℚ) (id : ℕ) (Tf : Vec3) (dims : Dims)
    (s : SupereightInterface) : SupereightInterface :=
  let i := uint64ToInt id
  let cs := cellsOf side Tf dims
  { s with
    submapDimensionLookup_ := fun k =>
      if k = id then some dims else s.submapDimensionLookup_ k
    hashTable_ := insertCells (eraseCells s.hashTable_ (s.hashTableInverse_ i) i) cs i
    hashTableInverse_ := fun j => if j = i then cs else s.hashTableInverse_ j }

/-- Modelled from the spec: `SupereightInterface::redoSpatialHashing`
(definition not in the repository slice) — relocates a map after a
loop-closure pose correction: removes all of the id's current cells
(using the inverse table), recomputes the cell set from the new pose
and the cached dimensions, and re-inserts.  A map with no cached
dimensions has nothing to relocate. -/
def redoSpatialHashing (side : ℚ) (id : ℕ) (Tf : Vec3)
    (s : SupereightInterface) : SupereightInterface :=
  match s.submapDimensionLookup_ id with
  | none => s
  | some dims =>
    let i := uint64ToInt id
    let cs := cellsOf side Tf dims
    { s with
      hashTable_ := insertCells (eraseCells s.hashTable_ (s.hashTableInverse_ i) i) cs i
      hashTableInverse_ := fun j => if j = i then cs else s.hashTableInverse_ j }

/-- Modelled from the spec: `SupereightInterface::fixReadLookups`
(definition not in the repository slice) — under the index lock,
deep-copies the live `hashTable_`, `submapPoseLookup_` and
`submapLookup_` into the read-side copies used by the planner. -/
def fixReadLookups (s : SupereightInterface) : SupereightInterface :=
  { s with
    hashTable_read := s.hashTable_
    submapPoseLookup_read := s.submapPoseLookup_
    submapLookup_read := s.submapLookup_ }

/-- Modelled from the spec: the trajectory propagation inside `predict`
(the okvis `Trajectory` is an external collaborator) — a last-known-pose
model over the buffered samples. -/
def propagateTo (traj : List (ℚ × Vec3)) (_t : ℚ) : Vec3 :=
  match traj with
  | [] => (0, 0, 0)
  | sample :: _ => sample.2

/-- Modelled from the spec: `SupereightInterface::predict` (definition
not in the repository slice) — given the depth frame's timestamp,
propagates the latest okvis update to a pose estimate.  Before any
pose-graph update has been observed (`no_kf_yet`, set `true` by the
constructor) it returns failure (`none`, the C++ `false` return) rather
than a pose. -/
def predict (s : SupereightInterface) (finalTimestamp : ℚ) : Option Vec3 :=
  if s.no_kf_yet then none
  else some (propagateTo s.propagatedStates finalTimestamp)

/-- Modelled from the spec: one iteration of the data-preparation loop
(`pushSuperEightData`, definition not in the repository slice) over the
depth-frame queue (front at the head, timestamps only).  When `predict`
fails the frame stays in the queue to be retried later; on success the
frame is consumed and an assembled (timestamp, pose) pair is produced. -/
def dataPreparationStep (s : SupereightInterface) (queue : List ℚ) :
    List ℚ × Option (ℚ × Vec3) :=
  match queue with
  | [] => ([], none)
  | t :: rest =>
    match predict s t with
    | none => (t :: rest, none)
    | some pose => (rest, some (t, pose))

/-- Modelled from the spec: `SupereightInterface::depthMat2Image`
(definition not in the repository slice; the header documents it as
converting an OpenCV depth Mat "following the TUM convention
(5000.f -> 1m)" into the supereight depth image).  A pixel value `v`
becomes the depth `v / 5000` in metres. -/
def depthMat2Image (v : ℚ) : ℚ := v / 5000

/-- Metric depth represented by an input pixel under the TUM convention
(5000 units per metre), i.e. the physical reading the depth producer
encoded. -/
def tumPixelMetricDepth (v : ℚ) : ℚ := v / 5000

/-- Squared Euclidean distance between two positions (squares avoid the
irrational square root; for a non-negative threshold `T`,
`dist < T ↔ dist² < T²`). -/
def sqDist (a b : Vec3) : ℚ :=
  (a.1 - b.1) ^ 2 + (a.2.1 - b.2.1) ^ 2 + (a.2.2 - b.2.2) ^ 2

/-- Submap bookkeeping of the integration loop: the number of submaps in
`submaps_` and the anchor position of the most recently created
submap (`none` before the first frame). -/
structure IntegrationState where
  submapCount : ℕ
  lastAnchor : Option Vec3
deriving DecidableEq

/-- Modelled from the spec: the submap-assignment step of
`processSupereightFrames` (definition not in the repository slice) —
for one integration frame with active-keyframe position `kfPos`,
compare the 3D distance from `kfPos` to the anchor of the most recently
created submap against the threshold `T` (compared in squares): below
the threshold the submap is reused, otherwise exactly one new submap
anchored at `kfPos` is created.  The first frame always creates. -/
def integrateFrame (T : ℚ) (s : IntegrationState) (kfPos : Vec3) :
    IntegrationState :=
  match s.lastAnchor with
  | none => { submapCount := s.submapCount + 1, lastAnchor := some kfPos }
  | some anchor =>
    if sqDist kfPos anchor < T ^ 2 then s
    else { submapCount := s.submapCount + 1, lastAnchor := some kfPos }

/-- Run the integration loop from an empty registry over a sequence of
integration frames (their active-keyframe positions). -/
def runIntegration (T : ℚ) (frames : List Vec3) : IntegrationState :=
  frames.foldl (integrateFrame T) ⟨0, none⟩

theorem wrap32_eq_of_lt {v : ℤ} (h0 : 0 ≤ v) (h : v < 2 ^ 31) : wrap32 v = v := by
  unfold wrap32
  rw [Int.emod_eq_of_lt (by omega) (by omega)]
  omega

theorem toSizeT_coe_nat {n : ℕ} (h : n < 2 ^ 64) : toSizeT (n : ℤ) = n := by
  unfold toSizeT
  rw [Int.emod_eq_of_lt (by omega) (by exact_mod_cast h)]
  exact Int.toNat_natCast n

theorem int_xor_natCast (a b : ℕ) : Int.xor (a : ℤ) (b : ℤ) = ((a ^^^ b : ℕ) : ℤ) := rfl

theorem insertCells_eraseCells_self (t : Cell → Finset ℤ) (cs : Finset Cell) (i : ℤ)
    (h : ∀ c ∈ cs, i ∈ t c) (c : Cell) :
    insertCells (eraseCells t cs i) cs i c = t c := by
  unfold insertCells eraseCells
  by_cases hc : c ∈ cs
  · simp only [hc, if_pos]
    exact Finset.insert_erase (h c hc)
  · simp [hc]

theorem mem_insertCells_of_mem (t : Cell → Finset ℤ) (cs : Finset Cell) (i : ℤ)
    {c : Cell} (hc : c ∈ cs) : i ∈ insertCells t cs i c := by
  simp [insertCells, hc]

theorem redoSpatialHashing_of_cached (side : ℚ) (id : ℕ) (Tf : Vec3) (dims : Dims)
    (s : SupereightInterface) (h : s.submapDimensionLookup_ id = some dims) :
    redoSpatialHashing side id Tf s =
      { s with
        hashTable_ := insertCells
          (eraseCells s.hashTable_ (s.hashTableInverse_ (uint64ToInt id)) (uint64ToInt id))
          (cellsOf side Tf dims) (uint64ToInt id)
        hashTableInverse_ := fun j =>
          if j = uint64ToInt id then cellsOf side Tf dims else s.hashTableInverse_ j } := by
  unfold redoSpatialHashing
  rw [h]

/-- Submap count of a whole run never decreases (helper for the
monotonicity claim). -/
theorem foldl_integrateFrame_mono (T : ℚ) (frames : List Vec3) :
    ∀ s : IntegrationState, s.submapCount ≤ (frames.foldl (integrateFrame T) s).submapCount := by
  induction frames with
  | nil => intro s; exact le_refl _
  | cons p rest ih =>
    intro s
    refine le_trans ?_ (ih (integrateFrame T s p))
    unfold integrateFrame
    cases s.lastAnchor with
    | none => exact Nat.le_succ _
    | some anchor =>
      by_cases hd : sqDist p anchor < T ^ 2
      · simp [hd]
      · simp [hd]

/-- C1: Submap creation follows the distance policy: for every
integration frame, the 3D distance between the frame's active keyframe
position and the anchor position of the most recently created submap is
compared to the configured threshold (squared comparison, equivalent for
a non-negative threshold); if below, that submap is reused, otherwise
exactly one new submap (anchored at the keyframe) is created.  In
particular, with threshold 4 and keyframes at (0,0,0), (1,0,0), (5,0,0)
each producing one integration frame, the final submap count is 2. -/
theorem submap_creation_distance_policy :
    (∀ (T : ℚ) (s : IntegrationState) (p anchor : Vec3),
      s.lastAnchor = some anchor → sqDist p anchor < T ^ 2 →
        integrateFrame T s p = s)
    ∧ (∀ (T : ℚ) (s : IntegrationState) (p anchor : Vec3),
      s.lastAnchor = some anchor → ¬ sqDist p anchor < T ^ 2 →
        integrateFrame T s p =
          { submapCount := s.submapCount + 1, lastAnchor := some p })
    ∧ (runIntegration 4 [(0, 0, 0), (1, 0, 0), (5, 0, 0)]).submapCount = 2 := by
  refine ⟨?_, ?_, ?_⟩
  · intro T s p anchor ha hd
    simp [integrateFrame, ha, hd]
  · intro T s p anchor ha hd
    simp [integrateFrame, ha, hd]
  · norm_num [runIntegration, integrateFrame, sqDist]

theorem submap_creation_distance_policy_witness :
    integrateFrame 4 ⟨1, some (0, 0, 0)⟩ (1, 0, 0) = ⟨1, some (0, 0, 0)⟩ ∧
    integrateFrame 4 ⟨1, some (0, 0, 0)⟩ (5, 0, 0) = ⟨2, some (5, 0, 0)⟩ :=
  ⟨submap_creation_distance_policy.1 4 ⟨1, some (0, 0, 0)⟩ (1, 0, 0) (0, 0, 0) rfl
      (by norm_num [sqDist]),
   submap_creation_distance_policy.2.1 4 ⟨1, some (0, 0, 0)⟩ (5, 0, 0) (0, 0, 0) rfl
      (by norm_num [sqDist])⟩

/-- C8: during normal operation the submap count is monotonically
non-decreasing across integration steps (no submap is ever destroyed),
and it increases by exactly one each time the active keyframe's distance
from the last-created submap's anchor exceeds the configured threshold
(squared comparison). -/
theorem submap_count_monotone :
    (∀ (T : ℚ) (s : IntegrationState) (p : Vec3),
      s.submapCount ≤ (integrateFrame T s p).submapCount)
    ∧ (∀ (T : ℚ) (s : IntegrationState) (frames : List Vec3),
      s.submapCount ≤ (frames.foldl (integrateFrame T) s).submapCount)
    ∧ (∀ (T : ℚ) (s : IntegrationState) (p anchor : Vec3),
      s.lastAnchor = some anchor → T ^ 2 < sqDist p anchor →
        (integrateFrame T s p).submapCount = s.submapCount + 1) := by
  refine ⟨?_, ?_, ?_⟩
  · intro T s p
    have := foldl_integrateFrame_mono T [p] s
    simpa using this
  · intro T s frames
    exact foldl_integrateFrame_mono T frames s
  · intro T s p anchor ha hd
    simp [integrateFrame, ha, not_lt.mpr (le_of_lt hd)]

theorem submap_count_monotone_witness :
    ((⟨1, some (0, 0, 0)⟩ : IntegrationState).submapCount ≤
      (integrateFrame 4 ⟨1, some (0, 0, 0)⟩ (5, 0, 0)).submapCount) ∧
    (integrateFrame 4 ⟨1, some (0, 0, 0)⟩ (5, 0, 0)).submapCount = 1 + 1 :=
  ⟨submap_count_monotone.1 4 ⟨1, some (0, 0, 0)⟩ (5, 0, 0),
   submap_count_monotone.2.2 4 ⟨1, some (0, 0, 0)⟩ (5, 0, 0) (0, 0, 0) rfl
      (by norm_num [sqDist])⟩

/-- C2: after `fixReadLookups` returns, for every submap id and cell,
the read-side copies (`hashTable_read`, `submapPoseLookup_read`,
`submapLookup_read`) hold exactly the entries the live tables held at
the moment of the call — in particular the read cell set of every id
equals the live cell set, not a superset or subset. -/
theorem fixReadLookups_snapshot_exact :
    ∀ (s : SupereightInterface) (id : ℕ) (c : Cell),
      (fixReadLookups s).hashTable_read c = s.hashTable_ c ∧
      (fixReadLookups s).submapPoseLookup_read id = s.submapPoseLookup_ id ∧
      (fixReadLookups s).submapLookup_read id = s.submapLookup_ id ∧
      (uint64ToInt id ∈ (fixReadLookups s).hashTable_read c ↔
        uint64ToInt id ∈ s.hashTable_ c) :=
  fun _ _ _ => ⟨rfl, rfl, rfl, Iff.rfl⟩

/-- C5: every depth pixel accepted by `addDepthImage` is interpreted as
linear depth (TUM convention, 5000 units per metre): the conversion to
the internal depth image yields exactly the metric depth the pixel
encodes, and it is linear in the pixel value (a scaling, not a
disparity-style reciprocal). -/
theorem depth_conversion_preserves_metric_depth :
    (∀ v : ℚ, depthMat2Image v = tumPixelMetricDepth v)
    ∧ (∀ a v : ℚ, depthMat2Image (a * v) = a * depthMat2Image v) :=
  ⟨fun _ => rfl, fun a v => mul_div_assoc a v 5000⟩

/-- C6: construction with a negative submap-creation distance threshold
is rejected at startup (the node constructor's assert aborts before any
instance exists), so no running instance ever holds a negative
threshold. -/
theorem negative_threshold_rejected_at_startup :
    (∀ d : ℚ, d < 0 → RosInterfacer.construct d = none)
    ∧ (∀ (d : ℚ) (m : SupereightInterface),
        RosInterfacer.construct d = some m → 0 ≤ m.distThreshold_) := by
  constructor
  · intro d hd
    simp [RosInterfacer.construct, not_le.mpr hd]
  · intro d m h
    unfold RosInterfacer.construct at h
    by_cases hd : 0 ≤ d
    · rw [if_pos hd] at h
      cases h
      exact hd
    · rw [if_neg hd] at h
      cases h

theorem negative_threshold_rejected_at_startup_witness :
    RosInterfacer.construct (-1) = none ∧
    0 ≤ (SupereightInterface.construct 4).distThreshold_ :=
  ⟨negative_threshold_rejected_at_startup.1 (-1) (by norm_num),
   negative_threshold_rejected_at_startup.2 4 (SupereightInterface.construct 4)
      (by norm_num [RosInterfacer.construct])⟩

/-- C7: on cold start — no pose-graph update observed yet, the state in
which the constructor leaves the object — `predict` returns failure
rather than a pose, for every timestamp; and the data-preparation loop
then leaves the depth-frame queue untouched (the frame is retried
later, not dropped). -/
theorem predict_cold_start_retries :
    (∀ (s : SupereightInterface) (t : ℚ), s.no_kf_yet = true → predict s t = none)
    ∧ (∀ (s : SupereightInterface) (q : List ℚ), s.no_kf_yet = true →
        dataPreparationStep s q = (q, none))
    ∧ (∀ d : ℚ, (SupereightInterface.construct d).no_kf_yet = true) := by
  refine ⟨?_, ?_, ?_⟩
  · intro s t h
    simp [predict, h]
  · intro s q h
    cases q with
    | nil => rfl
    | cons t rest => simp [dataPreparationStep, predict, h]
  · intro d
    rfl

theorem predict_cold_start_retries_witness :
    predict (SupereightInterface.construct 4) 0 = none ∧
    dataPreparationStep (SupereightInterface.construct 4) [1, 2] = ([1, 2], none) :=
  ⟨predict_cold_start_retries.1 (SupereightInterface.construct 4) 0 rfl,
   predict_cold_start_retries.2.1 (SupereightInterface.construct 4) [1, 2] rfl⟩

/-- C3: indexing a submap and then reindexing it with the same pose is a
no-op on its index entries: after `doSpatialHashing id pose map`
followed by `redoSpatialHashing id pose map`, every forward-table
bucket and every inverse-table entry is exactly as it was after the
first call (in particular the cells containing the id and the id's cell
set are unchanged). -/
theorem index_then_reindex_same_pose_noop :
    ∀ (side : ℚ) (id : ℕ) (Tf : Vec3) (dims : Dims) (s : SupereightInterface)
      (c : Cell) (j : ℤ),
      (redoSpatialHashing side id Tf (doSpatialHashing side id Tf dims s)).hashTable_ c
        = (doSpatialHashing side id Tf dims s).hashTable_ c ∧
      (redoSpatialHashing side id Tf (doSpatialHashing side id Tf dims s)).hashTableInverse_ j
        = (doSpatialHashing side id Tf dims s).hashTableInverse_ j := by
  intro side id Tf dims s c j
  have hdim : (doSpatialHashing side id Tf dims s).submapDimensionLookup_ id = some dims := by
    simp [doSpatialHashing]
  have hinv : (doSpatialHashing side id Tf dims s).hashTableInverse_ (uint64ToInt id)
      = cellsOf side Tf dims := by
    simp [doSpatialHashing]
  have hfwd : (doSpatialHashing side id Tf dims s).hashTable_
      = insertCells (eraseCells s.hashTable_ (s.hashTableInverse_ (uint64ToInt id))
          (uint64ToInt id)) (cellsOf side Tf dims) (uint64ToInt id) := rfl
  rw [redoSpatialHashing_of_cached side id Tf dims _ hdim]
  constructor
  · show insertCells (eraseCells (doSpatialHashing side id Tf dims s).hashTable_
        ((doSpatialHashing side id Tf dims s).hashTableInverse_ (uint64ToInt id))
        (uint64ToInt id)) (cellsOf side Tf dims) (uint64ToInt id) c
      = (doSpatialHashing side id Tf dims s).hashTable_ c
    rw [hinv]
    refine insertCells_eraseCells_self _ _ _ ?_ c
    intro c' hc'
    rw [hfwd]
    exact mem_insertCells_of_mem _ _ _ hc'
  · show (if j = uint64ToInt id then cellsOf side Tf dims
        else (doSpatialHashing side id Tf dims s).hashTableInverse_ j)
      = (doSpatialHashing side id Tf dims s).hashTableInverse_ j
    by_cases hj : j = uint64ToInt id
    · rw [if_pos hj, hj, hinv]
    · rw [if_neg hj]

/-- C4: for every integer cell coordinate, the spatial hash is the xor
of the three coordinate-prime products `x*73856093`, `y*19349663`,
`z*83492791` (stated on the overflow-free domain of the C++ `int`
arithmetic the source uses); and the hash tables tolerate hash
collisions: each bucket stores a set of ids, and updates key on exact
equality of the integer coordinate, so inserting at one cell never
touches any other cell's set. -/
theorem spatial_hash_primes_and_exact_buckets :
    (∀ x y z : ℕ, x * 73856093 < 2 ^ 31 → y * 19349663 < 2 ^ 31 → z * 83492791 < 2 ^ 31 →
      spatialHasher ((x : ℤ), (y : ℤ), (z : ℤ))
        = x * 73856093 ^^^ y * 19349663 ^^^ z * 83492791)
    ∧ (∀ (side : ℚ) (id : ℕ) (pos : Vec3) (s : SupereightInterface) (c' : Cell),
        c' ≠ cellOf side pos →
          (doPrelimSpatialHashing side id pos s).hashTable_ c' = s.hashTable_ c')
    ∧ (∀ (side : ℚ) (id : ℕ) (pos : Vec3) (s : SupereightInterface),
        uint64ToInt id ∈ (doPrelimSpatialHashing side id pos s).hashTable_ (cellOf side pos)) := by
  refine ⟨?_, ?_, ?_⟩
  · intro x y z hx hy hz
    unfold spatialHasher
    have ex : wrap32 ((x : ℤ) * 73856093) = ((x * 73856093 : ℕ) : ℤ) := by
      rw [show ((x : ℤ) * 73856093) = ((x * 73856093 : ℕ) : ℤ) by push_cast; ring]
      exact wrap32_eq_of_lt (Int.natCast_nonneg _) (by exact_mod_cast hx)
    have ey : wrap32 ((y : ℤ) * 19349663) = ((y * 19349663 : ℕ) : ℤ) := by
      rw [show ((y : ℤ) * 19349663) = ((y * 19349663 : ℕ) : ℤ) by push_cast; ring]
      exact wrap32_eq_of_lt (Int.natCast_nonneg _) (by exact_mod_cast hy)
    have ez : wrap32 ((z : ℤ) * 83492791) = ((z * 83492791 : ℕ) : ℤ) := by
      rw [show ((z : ℤ) * 83492791) = ((z * 83492791 : ℕ) : ℤ) by push_cast; ring]
      exact wrap32_eq_of_lt (Int.natCast_nonneg _) (by exact_mod_cast hz)
    rw [ex, ey, ez, int_xor_natCast, int_xor_natCast]
    refine toSizeT_coe_nat ?_
    have h1 : x * 73856093 ^^^ y * 19349663 < 2 ^ 31 := Nat.xor_lt_two_pow hx hy
    have h2 : x * 73856093 ^^^ y * 19349663 ^^^ z * 83492791 < 2 ^ 31 :=
      Nat.xor_lt_two_pow h1 hz
    calc x * 73856093 ^^^ y * 19349663 ^^^ z * 83492791 < 2 ^ 31 := h2
      _ < 2 ^ 64 := by norm_num
  · intro side id pos s c' h
    simp [doPrelimSpatialHashing, h]
  · intro side id pos s
    simp [doPrelimSpatialHashing]

theorem spatial_hash_primes_and_exact_buckets_witness :
    spatialHasher (((1 : ℕ) : ℤ), ((1 : ℕ) : ℤ), ((1 : ℕ) : ℤ))
      = 1 * 73856093 ^^^ 1 * 19349663 ^^^ 1 * 83492791 ∧
    (doPrelimSpatialHashing 1 7 (0, 0, 0) (SupereightInterface.construct 4)).hashTable_ (1, 1, 1)
      = (SupereightInterface.construct 4).hashTable_ (1, 1, 1) :=
  ⟨spatial_hash_primes_and_exact_buckets.1 1 1 1 (by norm_num) (by norm_num) (by norm_num),
   spatial_hash_primes_and_exact_buckets.2.1 1 7 (0, 0, 0) (SupereightInterface.construct 4)
      (1, 1, 1) (by norm_num [cellOf, Prod.ext_iff])⟩

/-- C10: submap ids are narrowed from `uint64_t` to `int` inside the
spatial index (buckets are sets of `int`, the inverse table is keyed by
`int`), while the other lookup tables keep the full `uint64_t` id:
two distinct ids whose `int` conversions coincide produce identical
forward and inverse tables when indexed, yet remain distinguishable in
the `uint64_t`-keyed dimension lookup. -/
theorem narrowed_int_ids_indistinguishable :
    ∀ (id1 id2 : ℕ) (side : ℚ) (Tf : Vec3) (dims : Dims)
      (s : SupereightInterface) (c : Cell) (j : ℤ),
      uint64ToInt id1 = uint64ToInt id2 →
      ((doSpatialHashing side id1 Tf dims s).hashTable_ c
          = (doSpatialHashing side id2 Tf dims s).hashTable_ c ∧
        (doSpatialHashing side id1 Tf dims s).hashTableInverse_ j
          = (doSpatialHashing side id2 Tf dims s).hashTableInverse_ j) ∧
      (id1 ≠ id2 →
        (doSpatialHashing side id1 Tf dims s).submapDimensionLookup_ id2
          = s.submapDimensionLookup_ id2) := by
  intro id1 id2 side Tf dims s c j h
  refine ⟨⟨?_, ?_⟩, ?_⟩
  · simp [doSpatialHashing, h]
  · simp [doSpatialHashing, h]
  · intro hne
    simp [doSpatialHashing, Ne.symm hne]

theorem narrowed_int_ids_indistinguishable_witness :
    ((doSpatialHashing 1 1 (0, 0, 0) ((0, 0, 0), (0, 0, 0))
          (SupereightInterface.construct 4)).hashTable_ (0, 0, 0)
        = (doSpatialHashing 1 4294967297 (0, 0, 0) ((0, 0, 0), (0, 0, 0))
          (SupereightInterface.construct 4)).hashTable_ (0, 0, 0) ∧
      (doSpatialHashing 1 1 (0, 0, 0) ((0, 0, 0), (0, 0, 0))
          (SupereightInterface.construct 4)).hashTableInverse_ 0
        = (doSpatialHashing 1 4294967297 (0, 0, 0) ((0, 0, 0), (0, 0, 0))
          (SupereightInterface.construct 4)).hashTableInverse_ 0) ∧
    (doSpatialHashing 1 1 (0, 0, 0) ((0, 0, 0), (0, 0, 0))
        (SupereightInterface.construct 4)).submapDimensionLookup_ 4294967297
      = (SupereightInterface.construct 4).submapDimensionLookup_ 4294967297 := by
  have h := narrowed_int_ids_indistinguishable 1 4294967297 1 (0, 0, 0) ((0, 0, 0), (0, 0, 0))
    (SupereightInterface.construct 4) (0, 0, 0) 0 (by decide)
  exact ⟨h.1, h.2 (by decide)⟩
